import Mathlib

/-!
Verification of the `brennivin` repository's specification against a shallow
embedding of its two core modules:

* `brennivin/pyobjcomparer.py` — a type-dispatching recursive structural
  comparer with numeric tolerance and breadcrumb diff reporting
  (`compare`, `get_compound_diff`);
* `brennivin/functoolsext.py` — the bounded LRU cache decorator
  (`lru_cache` wrapper, `cache_info`).

Python values are embedded as the inductive `PyVal`.  The embedding models
Python 3 semantics of the operations the source uses: `==` never raises on
builtin values, `<` raises `TypeError` between unrelated builtin types, and
numeric subtraction against a non-number raises `TypeError`.  Python's
bounded interpreter recursion (`RecursionError`) is modelled by an explicit
fuel argument on every recursive operation; all results about terminating
executions are stated for runs that return (i.e. do not exhaust fuel),
matching the spec's scope of comparisons that complete.

Numbers: Python ints and floats both dispatch to the same `_compare_number`
rule in the source and compare equal across these types (`1 == 1.0`), so both
are embedded as exact rationals `ℚ`.  Where a diagnostic message would show a
float repr or an object's memory address the embedding prints the exact
fraction resp. the object identity; no claim depends on those spellings.
-/

namespace Brennivin

/-- Python exceptions that the embedded operations can raise. -/
inductive PyErr : Type where
  | typeError
  | keyError
  | recursionError
deriving Repr, DecidableEq

/-- Embedded Python values: numbers (int/float as exact rationals), strings,
lists, tuples, sets and dicts (finite element/entry lists), and plain
`object()` instances identified by their identity. -/
inductive PyVal : Type where
  | num (q : ℚ)
  | str (s : String)
  | list (xs : List PyVal)
  | tuple (xs : List PyVal)
  | set (xs : List PyVal)
  | dict (entries : List (PyVal × PyVal))
  | obj (ident : ℕ)
deriving Repr

/-! ### Python primitive operations used by the comparer -/

/-- Elementwise equality of two lists via a given element equality
(Python's list/tuple `==`): lengths must agree and members compare equal. -/
def eqListWith (eqf : PyVal → PyVal → Except PyErr Bool) :
    List PyVal → List PyVal → Except PyErr Bool
  | [], [] => .ok true
  | x :: xs, y :: ys =>
    match eqf x y with
    | .error e => .error e
    | .ok b => if b then eqListWith eqf xs ys else .ok false
  | _, _ => .ok false

/-- Membership test by a given equality (Python's `in` for set members). -/
def memWith (eqf : PyVal → PyVal → Except PyErr Bool) (x : PyVal) :
    List PyVal → Except PyErr Bool
  | [] => .ok false
  | y :: ys =>
    match eqf x y with
    | .error e => .error e
    | .ok b => if b then .ok true else memWith eqf x ys

/-- Subset test by a given equality (Python's `set.issubset`). -/
def subsetWith (eqf : PyVal → PyVal → Except PyErr Bool) :
    List PyVal → List PyVal → Except PyErr Bool
  | [], _ => .ok true
  | x :: xs, ys =>
    match memWith eqf x ys with
    | .error e => .error e
    | .ok b => if b then subsetWith eqf xs ys else .ok false

/-- Does an equal (key, value) entry occur in the entry list?  Used for
Python's `dict == dict`, which requires each key to be present with an
equal value. -/
def entryMemWith (eqf : PyVal → PyVal → Except PyErr Bool) (k v : PyVal) :
    List (PyVal × PyVal) → Except PyErr Bool
  | [] => .ok false
  | (k2, v2) :: rest =>
    match eqf k k2 with
    | .error e => .error e
    | .ok kb =>
      if kb then
        match eqf v v2 with
        | .error e => .error e
        | .ok vb => if vb then .ok true else entryMemWith eqf k v rest
      else entryMemWith eqf k v rest

/-- Each entry of the first list occurs (up to the given equality) in the
second.  With equal lengths and the unique keys of real Python dicts this is
Python's `dict == dict`. -/
def entriesSubWith (eqf : PyVal → PyVal → Except PyErr Bool) :
    List (PyVal × PyVal) → List (PyVal × PyVal) → Except PyErr Bool
  | [], _ => .ok true
  | (k, v) :: rest, fs =>
    match entryMemWith eqf k v fs with
    | .error e => .error e
    | .ok b => if b then entriesSubWith eqf rest fs else .ok false

/-- Python structural equality `==` on embedded values.  Equality of builtin
values never raises `TypeError`; unequal types compare `False`; numbers
compare exactly (`1 == 1.0` holds, both being the rational 1).  The fuel
models the interpreter recursion limit. -/
def pyEq : ℕ → PyVal → PyVal → Except PyErr Bool
  | 0, _, _ => .error .recursionError
  | fuel + 1, a, b =>
    match a, b with
    | .num x, .num y => .ok (x == y)
    | .str x, .str y => .ok (x == y)
    | .list xs, .list ys => eqListWith (pyEq fuel) xs ys
    | .tuple xs, .tuple ys => eqListWith (pyEq fuel) xs ys
    | .set xs, .set ys =>
      match subsetWith (pyEq fuel) xs ys with
      | .error e => .error e
      | .ok b1 =>
        match subsetWith (pyEq fuel) ys xs with
        | .error e => .error e
        | .ok b2 => .ok (b1 && b2)
    | .dict es, .dict fs =>
      if es.length = fs.length then entriesSubWith (pyEq fuel) es fs
      else .ok false
    | .obj i, .obj j => .ok (i == j)
    | _, _ => .ok false

/-- Lexicographic order on code points, Python's `str < str`.
(Defined on the character lists so that it evaluates in the kernel.) -/
def strLtData : List Char → List Char → Bool
  | [], [] => false
  | [], _ :: _ => true
  | _ :: _, [] => false
  | c :: cs, d :: ds => if c = d then strLtData cs ds else decide (c.toNat < d.toNat)

/-- Python `str < str`. -/
def pyStrLt (s t : String) : Bool := strLtData s.data t.data

/-- Lexicographic list order from an element equality and order, Python's
`list < list` / `tuple < tuple`: skip equal prefixes, then compare the first
differing elements; a strict prefix is smaller. -/
def ltListWith (eqf ltf : PyVal → PyVal → Except PyErr Bool) :
    List PyVal → List PyVal → Except PyErr Bool
  | [], [] => .ok false
  | [], _ :: _ => .ok true
  | _ :: _, [] => .ok false
  | x :: xs, y :: ys =>
    match eqf x y with
    | .error e => .error e
    | .ok b => if b then ltListWith eqf ltf xs ys else ltf x y

/-- Python `<` on embedded values (Python 3 semantics): numbers and strings
by their order, lists/tuples lexicographically, sets by proper subset;
everything else (dicts, objects, mixed types) raises `TypeError`. -/
def pyLt : ℕ → PyVal → PyVal → Except PyErr Bool
  | 0, _, _ => .error .recursionError
  | fuel + 1, a, b =>
    match a, b with
    | .num x, .num y => .ok (Rat.blt x y)
    | .str x, .str y => .ok (pyStrLt x y)
    | .list xs, .list ys => ltListWith (pyEq fuel) (pyLt fuel) xs ys
    | .tuple xs, .tuple ys => ltListWith (pyEq fuel) (pyLt fuel) xs ys
    | .set xs, .set ys =>
      match subsetWith (pyEq fuel) xs ys with
      | .error e => .error e
      | .ok b1 =>
        match subsetWith (pyEq fuel) ys xs with
        | .error e => .error e
        | .ok b2 => .ok (b1 && !b2)
    | _, _ => .error .typeError

/-- Insert an element into a sorted list by the given `<` test: it goes in
front of the first strictly greater element (so ties keep their original
relative order, as in Python's stable sort). -/
def insortWith (ltf : PyVal → PyVal → Except PyErr Bool) (x : PyVal) :
    List PyVal → Except PyErr (List PyVal)
  | [] => .ok [x]
  | y :: ys =>
    match ltf x y with
    | .error e => .error e
    | .ok b =>
      if b then .ok (x :: y :: ys)
      else
        match insortWith ltf x ys with
        | .error e => .error e
        | .ok r => .ok (y :: r)

/-- Python's `sorted`, as a stable insertion sort over the given `<` test.
On lists whose elements are totally ordered by the test (every case the
comparer's claims exercise) any stable comparison sort agrees. -/
def sortWith (ltf : PyVal → PyVal → Except PyErr Bool) :
    List PyVal → Except PyErr (List PyVal)
  | [] => .ok []
  | x :: xs =>
    match sortWith ltf xs with
    | .error e => .error e
    | .ok r => insortWith ltf x r

/-- Python dict lookup `d[key]` as first entry whose key compares `==`.
Real dicts never hold two `==`-equal keys, so this is the entry's own value
whenever the key comes from the dict itself. -/
def lookupWith (eqf : PyVal → PyVal → Except PyErr Bool) :
    List (PyVal × PyVal) → PyVal → Except PyErr (Option PyVal)
  | [], _ => .ok none
  | (k2, v) :: rest, k =>
    match eqf k k2 with
    | .error e => .error e
    | .ok b => if b then .ok (some v) else lookupWith eqf rest k

mutual

/-- Python `repr` of an embedded value.  Integer-valued numbers print like
Python ints; other rationals print as exact fractions (the float repr is
abstracted); an object's identity stands in for its memory address. -/
def pyRepr : PyVal → String
  | .num q => if q.den = 1 then toString q.num else toString q.num ++ "/" ++ toString q.den
  | .str s => "\x27" ++ s ++ "\x27"
  | .list xs => "[" ++ pyReprItems xs ++ "]"
  | .tuple xs => "(" ++ pyReprItems xs ++ ")"
  | .set xs => "\x7b" ++ pyReprItems xs ++ "\x7d"
  | .dict es => "\x7b" ++ pyReprEntries es ++ "\x7d"
  | .obj i => "<object object at " ++ toString i ++ ">"
termination_by structural a => a

/-- Comma-separated reprs of the members of a container. -/
def pyReprItems : List PyVal → String
  | [] => ""
  | [x] => pyRepr x
  | x :: xs => pyRepr x ++ ", " ++ pyReprItems xs
termination_by structural xs => xs

/-- Comma-separated `key: value` reprs of dict entries. -/
def pyReprEntries : List (PyVal × PyVal) → String
  | [] => ""
  | [(k, v)] => pyRepr k ++ ": " ++ pyRepr v
  | (k, v) :: es => pyRepr k ++ ": " ++ pyRepr v ++ ", " ++ pyReprEntries es
termination_by structural es => es

end

/-- `type(β).__name__` for the embedded values (a number whose denominator
is 1 is shown as an int, any other as a float). -/
def pyTypeName : PyVal → String
  | .num q => if q.den = 1 then "int" else "float"
  | .str _ => "str"
  | .list _ => "list"
  | .tuple _ => "tuple"
  | .set _ => "set"
  | .dict _ => "dict"
  | .obj _ => "object"

/-! ### pyobjcomparer -/

/-- `TOLERANCE = 0.0001` from pyobjcomparer. -/
def TOLERANCE : ℚ := mkRat 1 10000

/-- The breadcrumb message `_check_type` appends when `b` has the wrong
type: `'%s is not a %s' % (type(b).__name__, type_.__name__)`. -/
def _check_type_msg (b : PyVal) (tyname : String) : PyVal :=
  .str (pyTypeName b ++ " is not a " ++ tyname)

/-- The breadcrumb message `'%r != %r' % (a, b)` appended by
`_compare_default` and `_compare_number`. -/
def _neq_msg (a b : PyVal) : PyVal :=
  .str (pyRepr a ++ " != " ++ pyRepr b)

/-- `abs(a - b) >= tol`, computed on numerators and denominators so that it
evaluates in the kernel (Batteries marks `Rat.sub` irreducible); the lemma
`absDiffGeTol_eq_decide` identifies it with the source's expression. -/
def absDiffGeTol (a b tol : ℚ) : Bool :=
  decide (tol.num * ((a.den : ℤ) * (b.den : ℤ)) ≤
    (tol.den : ℤ) * ((a.num * (b.den : ℤ) - b.num * (a.den : ℤ)).natAbs : ℤ))

/-- `_compare_default`: Python `!=`, appending a `'%r != %r'` breadcrumb on
inequality. -/
def _compare_default (fuel : ℕ) (a b : PyVal) (bc : List PyVal) :
    Except PyErr (Bool × List PyVal) :=
  match pyEq fuel a b with
  | .error e => .error e
  | .ok eqb =>
    if !eqb then .ok (false, bc ++ [_neq_msg a b])
    else .ok (true, bc)

/-- `_compare_number`: `abs(a - b) >= TOLERANCE` means unequal (with a
`'%r != %r'` breadcrumb); the subtraction raises `TypeError` when `b` is not
a number. -/
def _compare_number (a : ℚ) (b : PyVal) (bc : List PyVal) :
    Except PyErr (Bool × List PyVal) :=
  match b with
  | .num y =>
    if absDiffGeTol a y TOLERANCE then .ok (false, bc ++ [_neq_msg (.num a) (.num y)])
    else .ok (true, bc)
  | _ => .error .typeError

/-- The indexed loop of `_compare_list`: compare items pairwise with the
given comparison, and on the first failure append the position `i` to the
breadcrumb.  (`zip` stops at the shorter list; the caller has already
checked the lengths.) -/
def listLoop (cmp : PyVal → PyVal → List PyVal → Except PyErr (Bool × List PyVal)) :
    List PyVal → List PyVal → ℕ → List PyVal → Except PyErr (Bool × List PyVal)
  | [], _, _, bc => .ok (true, bc)
  | _ :: _, [], _, bc => .ok (true, bc)
  | x :: xs, y :: ys, i, bc =>
    match cmp x y bc with
    | .error e => .error e
    | .ok (eqv, bc2) =>
      if eqv then listLoop cmp xs ys (i + 1) bc2
      else .ok (false, bc2 ++ [.num (mkRat i 1)])

/-- The value loop of `_compare_dict`: walk the zipped sorted key lists,
fetch `a[akey]` and `b[bkey]`, compare the values, and on the first failure
append `akey` to the breadcrumb. -/
def dictLoop (eqf : PyVal → PyVal → Except PyErr Bool)
    (cmp : PyVal → PyVal → List PyVal → Except PyErr (Bool × List PyVal))
    (es fs : List (PyVal × PyVal)) :
    List PyVal → List PyVal → List PyVal → Except PyErr (Bool × List PyVal)
  | [], _, bc => .ok (true, bc)
  | _ :: _, [], bc => .ok (true, bc)
  | ak :: aks, bk :: bks, bc =>
    match lookupWith eqf es ak with
    | .error e => .error e
    | .ok none => .error .keyError
    | .ok (some av) =>
      match lookupWith eqf fs bk with
      | .error e => .error e
      | .ok none => .error .keyError
      | .ok (some bv) =>
        match cmp av bv bc with
        | .error e => .error e
        | .ok (eqv, bc2) =>
          if eqv then dictLoop eqf cmp es fs aks bks bc2
          else .ok (false, bc2 ++ [ak])

/-- `_compare`: dispatch on the type of `a` exactly as the source's `MAP`
does — numbers to `_compare_number`; strings and plain objects to
`_compare_default`; sets sort both sides and compare them as lists; tuples
compare as lists; lists check the opposing type and the lengths and then
run the indexed item loop; dicts check the opposing type, compare the sorted
key lists, then compare values per matched key. -/
def _compare : ℕ → PyVal → PyVal → List PyVal → Except PyErr (Bool × List PyVal)
  | 0, _, _, _ => .error .recursionError
  | fuel + 1, a, b, bc =>
    match a with
    | .num q => _compare_number q b bc
    | .str s => _compare_default fuel (.str s) b bc
    | .obj i => _compare_default fuel (.obj i) b bc
    | .set xs =>
      match b with
      | .set ys =>
        match sortWith (pyLt fuel) xs with
        | .error e => .error e
        | .ok xs2 =>
          match sortWith (pyLt fuel) ys with
          | .error e => .error e
          | .ok ys2 => _compare fuel (.list xs2) (.list ys2) bc
      | _ => .ok (false, bc ++ [_check_type_msg b "set"])
    | .tuple xs =>
      match b with
      | .tuple ys => _compare fuel (.list xs) (.list ys) bc
      | _ => .ok (false, bc ++ [_check_type_msg b "tuple"])
    | .list xs =>
      match b with
      | .list ys =>
        if xs.length ≠ ys.length then
          .ok (false, bc ++ [.str ("len neq (" ++ toString xs.length ++ " != " ++
            toString ys.length ++ "): " ++ pyRepr (.list xs) ++ " != " ++ pyRepr (.list ys))])
        else listLoop (_compare fuel) xs ys 0 bc
      | _ => .ok (false, bc ++ [_check_type_msg b "list"])
    | .dict es =>
      match b with
      | .dict fs =>
        match sortWith (pyLt fuel) (es.map Prod.fst) with
        | .error e => .error e
        | .ok aks =>
          match sortWith (pyLt fuel) (fs.map Prod.fst) with
          | .error e => .error e
          | .ok bks =>
            match _compare fuel (.list aks) (.list bks) bc with
            | .error e => .error e
            | .ok (eqk, bc1) =>
              if eqk then dictLoop (pyEq fuel) (_compare fuel) es fs aks bks bc1
              else .ok (false, bc1)
      | _ => .ok (false, bc ++ [_check_type_msg b "dict"])

/-- `compare(a, b)`: run `_compare` with a fresh breadcrumb and return the
boolean. -/
def compare (fuel : ℕ) (a b : PyVal) : Except PyErr Bool :=
  match _compare fuel a b [] with
  | .error e => .error e
  | .ok (eqv, _) => .ok eqv

/-- `get_compound_diff(a, b)`: run `_compare` with a fresh breadcrumb,
reverse the crumbs, and return `[a, b]` when unequal with no crumbs at all,
else the reversed crumbs. -/
def get_compound_diff (fuel : ℕ) (a b : PyVal) : Except PyErr (List PyVal) :=
  match _compare fuel a b [] with
  | .error e => .error e
  | .ok (eqv, crumbs0) =>
    let crumbs := crumbs0.reverse
    if !eqv && crumbs.isEmpty then .ok [a, b]
    else .ok crumbs

/-! ### functoolsext: the lru_cache wrapper -/

/-- The mutable state the `lru_cache` closure holds: the key/value entries
in recency order (head least recently used, last most recently used — the
hashmap and the circular linked list collapsed into one association list),
and the two statistics counters.  The wrapped function's argument tuples are
abstracted as keys of a type with decidable equality. -/
structure CacheState (α β : Type) where
  entries : List (α × β)
  hits : ℕ
  misses : ℕ
deriving Repr, DecidableEq

/-- The `CacheInfo` named tuple `(hits, misses, maxsize, currsize)`. -/
structure CacheInfo where
  hits : ℕ
  misses : ℕ
  maxsize : Option ℕ
  currsize : ℕ
deriving Repr, DecidableEq

/-- A cache with no entries and zeroed statistics, the decorator's initial
state. -/
def emptyCache {α β : Type} : CacheState α β := ⟨[], 0, 0⟩

/-- `cache.get(key)`: the value stored for the key, if any. -/
def cache_get {α β : Type} [DecidableEq α] : List (α × β) → α → Option β
  | [], _ => none
  | (k2, v) :: rest, k => if k = k2 then some v else cache_get rest k

/-- Unlink a key's entry from the recency list (the hit branch's pointer
surgery on the doubly linked list). -/
def removeKey {α β : Type} [DecidableEq α] : List (α × β) → α → List (α × β)
  | [], _ => []
  | (k2, v) :: rest, k => if k = k2 then rest else (k2, v) :: removeKey rest k

/-- One call through the `lru_cache` wrapper.  `maxsize = some 0` never
caches and only counts misses; `maxsize = none` caches without bound or
ordering; a positive bound gives the LRU wrapper: on a hit the entry moves
to the most-recently-used end and `hits` is incremented without invoking the
wrapped function; on a miss the function runs (an exception leaves the state
untouched and propagates), then — unless the key appeared meanwhile — the
result is inserted at the MRU end, evicting the LRU head when the cache is
at capacity, and `misses` is incremented. -/
def wrapper {α β ε : Type} [DecidableEq α] (maxsize : Option ℕ)
    (f : α → Except ε β) (s : CacheState α β) (k : α) :
    Except ε β × CacheState α β :=
  match maxsize with
  | some m =>
    if m = 0 then
      match f k with
      | .error e => (.error e, s)
      | .ok v => (.ok v, { s with misses := s.misses + 1 })
    else
      match cache_get s.entries k with
      | some v =>
        (.ok v, { entries := removeKey s.entries k ++ [(k, v)],
                  hits := s.hits + 1, misses := s.misses })
      | none =>
        match f k with
        | .error e => (.error e, s)
        | .ok v =>
          if (cache_get s.entries k).isSome then
            (.ok v, { s with misses := s.misses + 1 })
          else if s.entries.length ≥ m then
            (.ok v, { entries := s.entries.tail ++ [(k, v)],
                      hits := s.hits, misses := s.misses + 1 })
          else
            (.ok v, { entries := s.entries ++ [(k, v)],
                      hits := s.hits, misses := s.misses + 1 })
  | none =>
    match cache_get s.entries k with
    | some v => (.ok v, { s with hits := s.hits + 1 })
    | none =>
      match f k with
      | .error e => (.error e, s)
      | .ok v => (.ok v, { entries := s.entries ++ [(k, v)],
                           hits := s.hits, misses := s.misses + 1 })

/-- `cache_info()`: the statistics snapshot, with `currsize = len(cache)`. -/
def cache_info {α β : Type} (maxsize : Option ℕ) (s : CacheState α β) : CacheInfo :=
  ⟨s.hits, s.misses, maxsize, s.entries.length⟩

/-- Run a sequence of calls through the wrapper, keeping the final state. -/
def runCalls {α β ε : Type} [DecidableEq α] (maxsize : Option ℕ)
    (f : α → Except ε β) (s : CacheState α β) (ks : List α) : CacheState α β :=
  ks.foldl (fun s k => (wrapper maxsize f s k).2) s

/-- One call with a wrapped function that always returns normally. -/
def wrapperP {α β : Type} [DecidableEq α] (maxsize : Option ℕ)
    (f : α → β) (s : CacheState α β) (k : α) : Except Empty β × CacheState α β :=
  wrapper maxsize (fun a => .ok (f a)) s k

/-- Run a sequence of calls of a function that always returns normally. -/
def runCallsP {α β : Type} [DecidableEq α] (maxsize : Option ℕ)
    (f : α → β) (s : CacheState α β) (ks : List α) : CacheState α β :=
  runCalls maxsize (fun a => (.ok (f a) : Except Empty β)) s ks

/-! ### Properties of the comparer -/

/-- If every step of the element comparison leaves the breadcrumb unchanged on
success, a successful run of the list loop leaves it unchanged too. -/
lemma listLoop_true {cmp : PyVal → PyVal → List PyVal → Except PyErr (Bool × List PyVal)}
    (hcmp : ∀ x y bc eqv bc2, cmp x y bc = .ok (eqv, bc2) → eqv = true → bc2 = bc) :
    ∀ xs ys i bc bc2, listLoop cmp xs ys i bc = .ok (true, bc2) → bc2 = bc := by
  intro xs
  induction xs with
  | nil =>
    intro ys i bc bc2 h
    simp only [listLoop, Except.ok.injEq, Prod.mk.injEq, true_and] at h
    exact h.symm
  | cons x xs ih =>
    intro ys i bc bc2 h
    cases ys with
    | nil =>
      simp only [listLoop, Except.ok.injEq, Prod.mk.injEq, true_and] at h
      exact h.symm
    | cons y ys =>
      rw [listLoop] at h
      cases hc : cmp x y bc with
      | error e => rw [hc] at h; exact absurd h (by simp)
      | ok p =>
        obtain ⟨eqv, bc1⟩ := p
        rw [hc] at h
        cases eqv with
        | true =>
          simp only [if_true] at h
          have h1 : bc1 = bc := hcmp x y bc true bc1 hc rfl
          have h2 : bc2 = bc1 := ih ys (i + 1) bc1 bc2 h
          rw [h2, h1]
        | false => simp at h

/-- If every value comparison leaves the breadcrumb unchanged on success, a
successful run of the dict value loop leaves it unchanged too. -/
lemma dictLoop_true {eqf : PyVal → PyVal → Except PyErr Bool}
    {cmp : PyVal → PyVal → List PyVal → Except PyErr (Bool × List PyVal)}
    (hcmp : ∀ x y bc eqv bc2, cmp x y bc = .ok (eqv, bc2) → eqv = true → bc2 = bc)
    (es fs : List (PyVal × PyVal)) :
    ∀ aks bks bc bc2, dictLoop eqf cmp es fs aks bks bc = .ok (true, bc2) → bc2 = bc := by
  intro aks
  induction aks with
  | nil =>
    intro bks bc bc2 h
    simp only [dictLoop, Except.ok.injEq, Prod.mk.injEq, true_and] at h
    exact h.symm
  | cons ak aks ih =>
    intro bks bc bc2 h
    cases bks with
    | nil =>
      simp only [dictLoop, Except.ok.injEq, Prod.mk.injEq, true_and] at h
      exact h.symm
    | cons bk bks =>
      rw [dictLoop] at h
      cases h1 : lookupWith eqf es ak with
      | error e => simp [h1] at h
      | ok oav =>
        simp only [h1] at h
        cases oav with
        | none => simp at h
        | some av =>
          cases h2 : lookupWith eqf fs bk with
          | error e => simp [h2] at h
          | ok obv =>
            simp only [h2] at h
            cases obv with
            | none => simp at h
            | some bv =>
              cases h3 : cmp av bv bc with
              | error e => simp [h3] at h
              | ok p =>
                obtain ⟨eqv, bc1⟩ := p
                simp only [h3] at h
                cases eqv with
                | true =>
                  simp only [if_true] at h
                  have hb1 : bc1 = bc := hcmp av bv bc true bc1 h3 rfl
                  have hb2 : bc2 = bc1 := ih bks bc1 bc2 h
                  rw [hb2, hb1]
                | false => simp at h

/-- A successful equal verdict from `_compare_number` appends no crumb. -/
lemma compare_number_true (a : ℚ) (b : PyVal) (bc bc2 : List PyVal)
    (h : _compare_number a b bc = .ok (true, bc2)) : bc2 = bc := by
  unfold _compare_number at h
  cases b <;> simp at h
  split at h
  · simp at h
  · simp only [Except.ok.injEq, Prod.mk.injEq, true_and] at h
    first | exact h | exact h.symm

/-- A successful equal verdict from `_compare_default` appends no crumb. -/
lemma compare_default_true (fuel : ℕ) (a b : PyVal) (bc bc2 : List PyVal)
    (h : _compare_default fuel a b bc = .ok (true, bc2)) : bc2 = bc := by
  unfold _compare_default at h
  cases hpe : pyEq fuel a b with
  | error e => simp [hpe] at h
  | ok eqb =>
    simp only [hpe] at h
    cases eqb with
    | false => simp at h
    | true =>
      simp at h
      first | exact h | exact h.symm

/-- Crumbs are only appended on failing paths: when `_compare` returns `True`
the breadcrumb list comes back exactly as it went in. -/
lemma compare_true (fuel : ℕ) : ∀ a b bc eqv bc2,
    _compare fuel a b bc = .ok (eqv, bc2) → eqv = true → bc2 = bc := by
  induction fuel with
  | zero => intro a b bc eqv bc2 h; simp [_compare] at h
  | succ fuel ih =>
    intro a b bc eqv bc2 h htrue
    subst htrue
    cases a with
    | num q =>
      simp only [_compare] at h
      exact compare_number_true _ _ _ _ h
    | str s =>
      simp only [_compare] at h
      exact compare_default_true _ _ _ _ _ h
    | obj i =>
      simp only [_compare] at h
      exact compare_default_true _ _ _ _ _ h
    | set xs =>
      cases b <;> simp only [_compare] at h <;> try simp at h
      rename_i ys
      cases h1 : sortWith (pyLt fuel) xs with
      | error e => simp [h1] at h
      | ok xs2 =>
        simp only [h1] at h
        cases h2 : sortWith (pyLt fuel) ys with
        | error e => simp [h2] at h
        | ok ys2 =>
          simp only [h2] at h
          exact ih _ _ _ _ _ h rfl
    | tuple xs =>
      cases b <;> simp only [_compare] at h <;> try simp at h
      exact ih _ _ _ _ _ h rfl
    | list xs =>
      cases b <;> simp only [_compare] at h <;> try simp at h
      rename_i ys
      split at h
      · exact listLoop_true (fun x y bc eqv bc2 hh ht => ih x y bc eqv bc2 hh ht)
          xs ys 0 bc bc2 h
      · simp at h
    | dict es =>
      cases b <;> simp only [_compare] at h <;> try simp at h
      rename_i fs
      cases h1 : sortWith (pyLt fuel) (es.map Prod.fst) with
      | error e => simp [h1] at h
      | ok aks =>
        simp only [h1] at h
        cases h2 : sortWith (pyLt fuel) (fs.map Prod.fst) with
        | error e => simp [h2] at h
        | ok bks =>
          simp only [h2] at h
          cases h3 : _compare fuel (.list aks) (.list bks) bc with
          | error e => simp [h3] at h
          | ok p =>
            obtain ⟨eqk, bc1⟩ := p
            simp only [h3] at h
            cases eqk with
            | false => simp at h
            | true =>
              simp only [if_true] at h
              have hb1 : bc1 = bc := ih _ _ _ _ _ h3 rfl
              have hb2 : bc2 = bc1 :=
                dictLoop_true (fun x y bc eqv bc2 hh ht => ih x y bc eqv bc2 hh ht)
                  es fs aks bks bc1 bc2 h
              rw [hb2, hb1]

/-- C1: for every pair of values on which the comparison completes without
raising, `compare(a, b)` is `True` exactly when `get_compound_diff(a, b)` is
`[]`: equal structures yield an empty diff, unequal structures a non-empty
one. -/
theorem c1_compare_iff_diff_empty (fuel : ℕ) (a b : PyVal) (eqv : Bool)
    (h : compare fuel a b = .ok eqv) :
    ∃ ds, get_compound_diff fuel a b = .ok ds ∧ (eqv = true ↔ ds = []) := by
  unfold compare at h
  cases hc : _compare fuel a b [] with
  | error e => rw [hc] at h; exact absurd h (by simp)
  | ok p =>
    obtain ⟨eqv0, bc⟩ := p
    rw [hc] at h
    simp only [Except.ok.injEq] at h
    subst h
    unfold get_compound_diff
    rw [hc]
    cases eqv0 with
    | true =>
      have hbc : bc = [] := compare_true fuel a b [] true bc hc rfl
      subst hbc
      exact ⟨[], by simp, by simp⟩
    | false =>
      cases bc with
      | nil => exact ⟨[a, b], by simp, by simp⟩
      | cons c cs =>
        refine ⟨(c :: cs).reverse, ?_, ?_⟩
        · simp
        · simp

/-- Witness for C1 at `a = b = 1`. -/
theorem c1_witness : compare 5 (.num 1) (.num 1) = .ok true ∧
    ∃ ds, get_compound_diff 5 (.num 1) (.num 1) = .ok ds ∧ (true = true ↔ ds = []) :=
  ⟨rfl, c1_compare_iff_diff_empty 5 (.num 1) (.num 1) true rfl⟩

/-- C3 (code bug): at the docstring's own doctest input the code returns the
five-element list `[0, 'first', 0, 'second', '0 != 1']` — the breadcrumb path
plus the innermost diagnostic appended by `_compare_number` — not the
four-element path `[0, 'first', 0, 'second']` that the doctest, the unit
tests and the claim state. -/
theorem c3_diff_has_trailing_message : get_compound_diff 20
    (.list [.dict [(.str "first", .list [.dict [(.str "second", .num 0)]])]])
    (.list [.dict [(.str "first", .list [.dict [(.str "second", .num 1)]])]]) =
    .ok [.num 0, .str "first", .num 0, .str "second", .str "0 != 1"] := rfl

/-- C8 (code bug): `get_compound_diff(object(), 'foo')` returns the
one-element list holding the `'%r != %r'` message that `_compare_default`
appends, not the two-element `[a, b]` that the doctest, `testMixed` and the
claim state: because a crumb is recorded, the degenerate `[a, b]` branch
never fires. -/
theorem c8_diff_is_message_not_pair :
    get_compound_diff 5 (.obj 0) (.str "foo") =
      .ok [.str "<object object at 0> != \x27foo\x27"] := rfl

/-- C6 (counterexample): `compare(1, 'foo')` raises `TypeError` instead of
returning a boolean — `_compare_number` subtracts with no try/except, so the
claim that the pair is treated as unequal fails. -/
theorem c6_compare_raises_on_num_vs_str :
    compare 1 (.num 1) (.str "foo") = .error .typeError := rfl

/-- C6 (amended): when `a` is numeric and `b` is not numeric, `compare`
propagates the `TypeError` from the numeric subtraction instead of treating
the pair as unequal; on pairs where no such comparison occurs the remaining
paths return booleans, as in C1's completed runs. -/
theorem c6_amended_num_vs_nonnum_raises (fuel : ℕ) (q : ℚ) (b : PyVal)
    (hb : ∀ y : ℚ, b ≠ .num y) :
    compare (fuel + 1) (.num q) b = .error .typeError := by
  cases b with
  | num y => exact absurd rfl (hb y)
  | str s => rfl
  | list xs => rfl
  | tuple xs => rfl
  | set xs => rfl
  | dict es => rfl
  | obj i => rfl

/-- Witness for the amended C6 at `a = 1`, `b = 'foo'`. -/
theorem c6_amended_witness :
    (∀ y : ℚ, PyVal.str "foo" ≠ PyVal.num y) ∧
    compare 1 (.num 1) (.str "foo") = .error .typeError :=
  ⟨fun _ h => PyVal.noConfusion h,
   c6_amended_num_vs_nonnum_raises 0 1 (.str "foo") (fun _ h => PyVal.noConfusion h)⟩

/-- The default tolerance is positive. -/
lemma tolerance_pos : (0 : ℚ) < TOLERANCE := by
  rw [TOLERANCE, Rat.mkRat_eq_div]
  norm_num

/-- The kernel-computable numerator/denominator test agrees with the source's
`abs(a - b) >= TOLERANCE`. -/
lemma absDiffGeTol_iff (a b tol : ℚ) :
    absDiffGeTol a b tol = true ↔ tol ≤ |a - b| := by
  have had : (0 : ℚ) < (a.den : ℚ) := by exact_mod_cast a.den_pos
  have hbd : (0 : ℚ) < (b.den : ℚ) := by exact_mod_cast b.den_pos
  have htd : (0 : ℚ) < (tol.den : ℚ) := by exact_mod_cast tol.den_pos
  have hD : (0 : ℚ) < (a.den : ℚ) * (b.den : ℚ) := mul_pos had hbd
  have hsub : a - b = ((a.num * (b.den : ℤ) - b.num * (a.den : ℤ) : ℤ) : ℚ) /
      ((a.den : ℚ) * (b.den : ℚ)) := by
    conv_lhs => rw [← Rat.num_div_den a, ← Rat.num_div_den b]
    rw [div_sub_div _ _ (ne_of_gt had) (ne_of_gt hbd)]
    push_cast
    ring_nf
  have key : tol ≤ |a - b| ↔ (tol.num : ℚ) * (((a.den : ℤ) * (b.den : ℤ) : ℤ) : ℚ) ≤
      ((tol.den : ℤ) : ℚ) * ((((a.num * (b.den : ℤ) - b.num * (a.den : ℤ)).natAbs : ℤ) : ℚ)) := by
    rw [hsub, abs_div, abs_of_pos hD, le_div_iff₀ hD]
    conv_lhs => rw [← Rat.num_div_den tol, div_mul_eq_mul_div]
    rw [div_le_iff₀ htd]
    rw [← Int.cast_abs, Int.abs_eq_natAbs]
    constructor
    · intro h
      push_cast at h ⊢
      linarith
    · intro h
      push_cast at h ⊢
      linarith
  rw [absDiffGeTol, decide_eq_true_eq, key]
  constructor
  · intro h
    exact_mod_cast h
  · intro h
    exact_mod_cast h

/-- The dict branch of `_compare`: with both key sorts succeeding, the sorted
key lists comparing equal and the value loop succeeding, two dicts compare
equal. -/
lemma compare_dict_branch (fuel : ℕ) (es fs : List (PyVal × PyVal)) (aks bks : List PyVal)
    (h1 : sortWith (pyLt fuel) (es.map Prod.fst) = .ok aks)
    (h2 : sortWith (pyLt fuel) (fs.map Prod.fst) = .ok bks)
    (h3 : _compare fuel (.list aks) (.list bks) [] = .ok (true, []))
    (h4 : dictLoop (pyEq fuel) (_compare fuel) es fs aks bks [] = .ok (true, [])) :
    compare (fuel + 1) (.dict es) (.dict fs) = .ok true := by
  simp [compare, _compare, h1, h2, h3, h4]

/-- C7: two numbers are equal to the comparer exactly when
`abs(a - b) < TOLERANCE` with the default `TOLERANCE = 0.0001`; concretely
`compare(1.00000001, 1.0)` is `True` and `compare(1.01, 1.0)` is `False`. -/
theorem c7_numeric_tolerance :
    (∀ (fuel : ℕ) (a b : ℚ),
      compare (fuel + 1) (.num a) (.num b) = .ok (decide (|a - b| < TOLERANCE)))
    ∧ compare 1 (.num (mkRat 100000001 100000000)) (.num 1) = .ok true
    ∧ compare 1 (.num (mkRat 101 100)) (.num 1) = .ok false := by
  refine ⟨?_, rfl, rfl⟩
  intro fuel a b
  cases habs : absDiffGeTol a b TOLERANCE with
  | true =>
    have hge : TOLERANCE ≤ |a - b| := (absDiffGeTol_iff a b TOLERANCE).mp habs
    rw [decide_eq_false (not_lt.mpr hge)]
    simp [compare, _compare, _compare_number, habs]
  | false =>
    have hlt : |a - b| < TOLERANCE := by
      by_contra hc
      exact absurd ((absDiffGeTol_iff a b TOLERANCE).mpr (not_lt.mp hc)) (by simp [habs])
    rw [decide_eq_true hlt]
    simp [compare, _compare, _compare_number, habs]

/-- C10: dict comparison applies the comparer's recursive rules — with the
numeric tolerance — to the sorted key lists rather than demanding exact
key-set equality, and then compares the values found under each dict's own
position-matched key; in particular single-entry dicts whose numeric keys
differ by less than the tolerance and hold the same string value compare
equal. -/
theorem c10_dict_tolerant_keys :
    (∀ (fuel : ℕ) (es fs : List (PyVal × PyVal)) (aks bks : List PyVal),
      sortWith (pyLt fuel) (es.map Prod.fst) = .ok aks →
      sortWith (pyLt fuel) (fs.map Prod.fst) = .ok bks →
      _compare fuel (.list aks) (.list bks) [] = .ok (true, []) →
      dictLoop (pyEq fuel) (_compare fuel) es fs aks bks [] = .ok (true, []) →
      compare (fuel + 1) (.dict es) (.dict fs) = .ok true)
    ∧ (∀ (k1 k2 : ℚ) (s : String), |k1 - k2| < TOLERANCE →
        compare 3 (.dict [(.num k1, .str s)]) (.dict [(.num k2, .str s)]) = .ok true) := by
  constructor
  · exact compare_dict_branch
  · intro k1 k2 s hk
    have habs : absDiffGeTol k1 k2 TOLERANCE = false := by
      cases hx : absDiffGeTol k1 k2 TOLERANCE
      · rfl
      · exact absurd ((absDiffGeTol_iff k1 k2 TOLERANCE).mp hx) (not_le.mpr hk)
    have h3 : _compare 2 (.list [.num k1]) (.list [.num k2]) [] = .ok (true, []) := by
      simp [_compare, listLoop, _compare_number, habs]
    have h4 : dictLoop (pyEq 2) (_compare 2)
        [(.num k1, .str s)] [(.num k2, .str s)] [.num k1] [.num k2] [] = .ok (true, []) := by
      simp [dictLoop, lookupWith, pyEq, _compare, _compare_default, listLoop]
    exact compare_dict_branch 2 _ _ _ _ rfl rfl h3 h4

/-- Witness for C10 at the claim's example `{1.0: 'x'}` vs
`{1.00000001: 'x'}`. -/
theorem c10_witness :
    |(1 : ℚ) - mkRat 100000001 100000000| < TOLERANCE ∧
    compare 3 (.dict [(.num 1, .str "x")])
      (.dict [(.num (mkRat 100000001 100000000), .str "x")]) = .ok true := by
  have habs : absDiffGeTol 1 (mkRat 100000001 100000000) TOLERANCE = false := rfl
  have hlt : |(1 : ℚ) - mkRat 100000001 100000000| < TOLERANCE := by
    by_contra hc
    have := (absDiffGeTol_iff 1 (mkRat 100000001 100000000) TOLERANCE).mpr (not_lt.mp hc)
    rw [habs] at this
    exact absurd this (by simp)
  exact ⟨hlt, c10_dict_tolerant_keys.2 1 (mkRat 100000001 100000000) "x" hlt⟩

/-- A key that is not among the stored keys is not found. -/
lemma cache_get_none {α β : Type} [DecidableEq α] :
    ∀ (l : List (α × β)) (k : α), k ∉ l.map Prod.fst → cache_get l k = none := by
  intro l
  induction l with
  | nil => intro k _; rfl
  | cons p rest ih =>
    obtain ⟨k2, v⟩ := p
    intro k h
    simp only [List.map_cons, List.mem_cons, not_or] at h
    rw [cache_get, if_neg h.1]
    exact ih k h.2

/-- Unlinking a present key shortens the recency list by exactly one. -/
lemma removeKey_length {α β : Type} [DecidableEq α] :
    ∀ (l : List (α × β)) (k : α) (v : β), cache_get l k = some v →
      (removeKey l k).length + 1 = l.length := by
  intro l
  induction l with
  | nil => intro k v h; simp [cache_get] at h
  | cons p rest ih =>
    obtain ⟨k2, v2⟩ := p
    intro k v h
    by_cases hk : k = k2
    · rw [removeKey, if_pos hk]
      simp
    · rw [cache_get, if_neg hk] at h
      rw [removeKey, if_neg hk]
      simp only [List.length_cons]
      rw [ih k v h]

/-- The hit branch of the bounded wrapper: the cached value is returned, the
entry moves to the most-recently-used end, `hits` is incremented, and the
wrapped function's behaviour is irrelevant. -/
lemma wrapper_hit {α β ε : Type} [DecidableEq α] (m : ℕ) (f : α → Except ε β)
    (s : CacheState α β) (k : α) (v : β)
    (hm : m ≠ 0) (hget : cache_get s.entries k = some v) :
    wrapper (some m) f s k =
      (.ok v, { entries := removeKey s.entries k ++ [(k, v)],
                hits := s.hits + 1, misses := s.misses }) := by
  simp [wrapper, hm, hget]

/-- The miss branch below capacity: the new entry is appended at the
most-recently-used end and `misses` is incremented. -/
lemma wrapper_miss_insert {α β ε : Type} [DecidableEq α] (m : ℕ) (f : α → Except ε β)
    (s : CacheState α β) (k : α) (v : β)
    (hm : m ≠ 0) (hget : cache_get s.entries k = none) (hf : f k = .ok v)
    (hlen : s.entries.length < m) :
    wrapper (some m) f s k =
      (.ok v, { entries := s.entries ++ [(k, v)],
                hits := s.hits, misses := s.misses + 1 }) := by
  simp [wrapper, hm, hget, hf, Nat.not_le.mpr hlen]

/-- The miss branch at capacity: the least-recently-used head is evicted, the
new entry is appended at the most-recently-used end and `misses` is
incremented. -/
lemma wrapper_miss_evict {α β ε : Type} [DecidableEq α] (m : ℕ) (f : α → Except ε β)
    (s : CacheState α β) (k : α) (v : β)
    (hm : m ≠ 0) (hget : cache_get s.entries k = none) (hf : f k = .ok v)
    (hlen : s.entries.length ≥ m) :
    wrapper (some m) f s k =
      (.ok v, { entries := s.entries.tail ++ [(k, v)],
                hits := s.hits, misses := s.misses + 1 }) := by
  simp [wrapper, hm, hget, hf, hlen]

/-- One bounded call never grows the cache beyond `maxsize`. -/
lemma wrapper_entries_len_le {α β ε : Type} [DecidableEq α] (m : ℕ) (f : α → Except ε β)
    (s : CacheState α β) (k : α) (h : s.entries.length ≤ m) :
    ((wrapper (some m) f s k).2).entries.length ≤ m := by
  by_cases hm : m = 0
  · subst hm
    simp only [wrapper, if_pos rfl]
    cases f k <;> simpa using h
  · cases hget : cache_get s.entries k with
    | some v =>
      rw [wrapper_hit m f s k v hm hget]
      have := removeKey_length s.entries k v hget
      simp only [List.length_append, List.length_cons, List.length_nil]
      omega
    | none =>
      cases hf : f k with
      | error e =>
        simp only [wrapper, if_neg hm, hget, hf]
        exact h
      | ok v =>
        by_cases hlen : s.entries.length ≥ m
        · rw [wrapper_miss_evict m f s k v hm hget hf hlen]
          simp only [List.length_append, List.length_cons, List.length_nil, List.length_tail]
          omega
        · rw [wrapper_miss_insert m f s k v hm hget hf (Nat.not_le.mp hlen)]
          simp only [List.length_append, List.length_cons, List.length_nil]
          omega

/-- No sequence of bounded calls grows the cache beyond `maxsize`. -/
lemma runCalls_entries_len_le {α β ε : Type} [DecidableEq α] (m : ℕ) (f : α → Except ε β) :
    ∀ (ks : List α) (s : CacheState α β), s.entries.length ≤ m →
      (runCalls (some m) f s ks).entries.length ≤ m := by
  intro ks
  induction ks with
  | nil => intro s h; exact h
  | cons k ks ih =>
    intro s h
    have hstep : runCalls (some m) f s (k :: ks) =
        runCalls (some m) f ((wrapper (some m) f s k).2) ks := rfl
    rw [hstep]
    exact ih _ (wrapper_entries_len_le m f s k h)

/-- Calling a bounded cache of size `N` on distinct fresh keys leaves exactly
the last `N` of them, in call order: the cache is a sliding window over the
key sequence. -/
lemma runCallsP_window {α β : Type} [DecidableEq α] (N : ℕ) (hN : 0 < N) (f : α → β) :
    ∀ (ks : List α), ks.Nodup →
      (runCallsP (some N) f emptyCache ks).entries =
        (ks.map fun k => (k, f k)).drop (ks.length - N) := by
  intro ks
  induction ks using List.reverseRecOn with
  | nil => intro _; simp [runCallsP, runCalls, emptyCache]
  | append_singleton l x ih =>
    intro hnd
    have hl : l.Nodup := (List.nodup_append.mp hnd).1
    have hx : x ∉ l := fun hxl => (List.nodup_append.mp hnd).2.2 hxl (List.mem_singleton_self x)
    have hw := ih hl
    have hrun : runCallsP (some N) f emptyCache (l ++ [x]) =
        (wrapper (some N) (fun a => (.ok (f a) : Except Empty β))
          (runCallsP (some N) f emptyCache l) x).2 := by
      simp [runCallsP, runCalls, List.foldl_append]
    have hkeys : (runCallsP (some N) f emptyCache l).entries.map Prod.fst =
        l.drop (l.length - N) := by
      rw [hw, ← List.map_drop, List.map_map]
      have hcomp : (Prod.fst ∘ fun k => (k, f k)) = id := rfl
      rw [hcomp, List.map_id]
    have hget : cache_get (runCallsP (some N) f emptyCache l).entries x = none := by
      apply cache_get_none
      rw [hkeys]
      exact fun hmem => hx (List.mem_of_mem_drop hmem)
    have hlenW : (runCallsP (some N) f emptyCache l).entries.length =
        l.length - (l.length - N) := by
      rw [hw, List.length_drop, List.length_map]
    rw [hrun]
    by_cases hcase : l.length < N
    · have hlt : (runCallsP (some N) f emptyCache l).entries.length < N := by
        rw [hlenW]; omega
      rw [wrapper_miss_insert N _ _ x (f x) (Nat.pos_iff_ne_zero.mp hN) hget rfl hlt]
      have hd0 : l.length - N = 0 := by omega
      have hd1 : (l ++ [x]).length - N = 0 := by
        simp only [List.length_append, List.length_cons, List.length_nil]
        omega
      rw [hw, hd0, hd1, List.drop_zero, List.drop_zero, List.map_append]
      simp
    · have hge : (runCallsP (some N) f emptyCache l).entries.length ≥ N := by
        rw [hlenW]; omega
      rw [wrapper_miss_evict N _ _ x (f x) (Nat.pos_iff_ne_zero.mp hN) hget rfl hge]
      simp only []
      rw [hw, List.tail_drop, List.map_append,
        List.drop_append_of_le_length
          (by rw [List.length_map]
              simp only [List.length_append, List.length_cons, List.length_nil]
              omega)]
      simp only [List.length_append, List.length_cons, List.length_nil, List.map_cons,
        List.map_nil]
      congr 2
      omega

/-- C2: for a cache built with positive `maxsize = N`, `currsize ≤ N` holds
after every sequence of calls; and inserting `N + 1` distinct keys leaves
`currsize = N`, the entries being exactly the last `N` keys in order, with
the first-inserted (least recently used) key evicted. -/
theorem c2_lru_bound {α β : Type} [DecidableEq α] (N : ℕ) (hN : 0 < N) :
    (∀ (ε : Type) (f : α → Except ε β) (ks : List α),
      (cache_info (some N) (runCalls (some N) f emptyCache ks)).currsize ≤ N)
    ∧ (∀ (f : α → β) (ks : List α), ks.Nodup → ks.length = N + 1 →
      (runCallsP (some N) f emptyCache ks).entries = (ks.map fun k => (k, f k)).drop 1
      ∧ (cache_info (some N) (runCallsP (some N) f emptyCache ks)).currsize = N
      ∧ ∀ k0, ks.head? = some k0 →
          cache_get (runCallsP (some N) f emptyCache ks).entries k0 = none) := by
  constructor
  · intro ε f ks
    exact runCalls_entries_len_le N f ks emptyCache (by simp [emptyCache])
  · intro f ks hnd hlen
    have hwin := runCallsP_window N hN f ks hnd
    rw [hlen] at hwin
    have hd1 : N + 1 - N = 1 := by omega
    rw [hd1] at hwin
    refine ⟨hwin, ?_, ?_⟩
    · show (runCallsP (some N) f emptyCache ks).entries.length = N
      rw [hwin, List.length_drop, List.length_map, hlen]
      omega
    · intro k0 hk0
      cases ks with
      | nil => simp at hk0
      | cons ka rest =>
        simp only [List.head?_cons, Option.some.injEq] at hk0
        subst hk0
        rw [hwin]
        simp only [List.map_cons, List.drop_succ_cons, List.drop_zero]
        apply cache_get_none
        rw [List.map_map]
        have hcomp : (Prod.fst ∘ fun k => (k, f k)) = id := rfl
        rw [hcomp, List.map_id]
        exact (List.nodup_cons.mp hnd).1

/-- Witness for C2 at `N = 1`, keys `[0, 1]`. -/
theorem c2_witness :
    (0 : ℕ) < 1 ∧ ([0, 1] : List ℕ).Nodup ∧
    (runCallsP (some 1) (fun n => n + 7) (emptyCache : CacheState ℕ ℕ) [0, 1]).entries =
      (([0, 1] : List ℕ).map fun k => (k, k + 7)).drop 1 :=
  ⟨Nat.one_pos, by decide,
   ((c2_lru_bound 1 Nat.one_pos).2 (fun n => n + 7) [0, 1] (by decide) rfl).1⟩

/-- C4: with `maxsize = 2` and calls keyed `A, B, A, C` (here `0, 1, 0, 2`)
the cache ends holding exactly `{A, C}` — the hit on `A` promoted it past
`B`, which was evicted — with one hit and three misses; and on every hit the
wrapped function is not invoked (the result is the same for any wrapped
function), `hits` is incremented, and the hit entry moves to the
most-recently-used end. -/
theorem c4_hit_promotes {α β ε : Type} [DecidableEq α] :
    (∀ f : ℕ → ℕ,
      (runCallsP (some 2) f emptyCache [0, 1, 0, 2]).entries = [(0, f 0), (2, f 2)]
      ∧ (runCallsP (some 2) f emptyCache [0, 1, 0, 2]).hits = 1
      ∧ (runCallsP (some 2) f emptyCache [0, 1, 0, 2]).misses = 3)
    ∧ (∀ (m : ℕ) (f g : α → Except ε β) (s : CacheState α β) (k : α) (v : β),
      m ≠ 0 → cache_get s.entries k = some v →
      wrapper (some m) f s k =
        (.ok v, { entries := removeKey s.entries k ++ [(k, v)],
                  hits := s.hits + 1, misses := s.misses })
      ∧ wrapper (some m) f s k = wrapper (some m) g s k) := by
  constructor
  · intro f
    refine ⟨?_, ?_, ?_⟩ <;>
      simp [runCallsP, runCalls, wrapper, cache_get, removeKey, emptyCache, List.foldl]
  · intro m f g s k v hm hget
    exact ⟨wrapper_hit m f s k v hm hget,
      by rw [wrapper_hit m f s k v hm hget, wrapper_hit m g s k v hm hget]⟩

/-- Witness for C4's hit branch at a concrete one-entry cache. -/
theorem c4_witness :
    (2 : ℕ) ≠ 0 ∧
    cache_get ([((5 : ℕ), (9 : ℕ))]) 5 = some 9 ∧
    wrapper (some 2) (fun _ => (.ok 0 : Except Unit ℕ))
        ({ entries := [(5, 9)], hits := 0, misses := 0 } : CacheState ℕ ℕ) 5 =
      (.ok 9, { entries := removeKey [(5, 9)] 5 ++ [(5, 9)], hits := 0 + 1, misses := 0 }) :=
  ⟨by decide, rfl,
   (c4_hit_promotes.2 2 (fun _ => (.ok 0 : Except Unit ℕ)) (fun _ => (.ok 0 : Except Unit ℕ))
     { entries := [(5, 9)], hits := 0, misses := 0 } 5 9 (by decide) rfl).1⟩

/-- C5: under every maxsize configuration, an exception raised by the wrapped
function propagates to the caller unmodified and leaves the cache state
untouched, so a subsequent call with the same key re-invokes the function
and raises again. -/
theorem c5_errors_not_cached {α β ε : Type} [DecidableEq α] (maxsize : Option ℕ)
    (f : α → Except ε β) (s : CacheState α β) (k : α) (e : ε)
    (hf : f k = .error e) (hmiss : cache_get s.entries k = none) :
    wrapper maxsize f s k = (.error e, s) ∧
    wrapper maxsize f (wrapper maxsize f s k).2 k = (.error e, s) := by
  have h1 : wrapper maxsize f s k = (.error e, s) := by
    cases maxsize with
    | none => simp [wrapper, hmiss, hf]
    | some m =>
      by_cases hm : m = 0
      · simp [wrapper, hm, hf]
      · simp [wrapper, hm, hmiss, hf]
  refine ⟨h1, ?_⟩
  rw [h1]
  exact h1

/-- Witness for C5 at `maxsize = 1` with an always-raising function. -/
theorem c5_witness :
    ((fun _ : ℕ => (Except.error 7 : Except ℕ ℕ)) 0 = .error 7) ∧
    cache_get (emptyCache : CacheState ℕ ℕ).entries 0 = none ∧
    wrapper (some 1) (fun _ => (.error 7 : Except ℕ ℕ)) emptyCache 0 = (.error 7, emptyCache) ∧
    wrapper (some 1) (fun _ => (.error 7 : Except ℕ ℕ))
      (wrapper (some 1) (fun _ => (.error 7 : Except ℕ ℕ)) emptyCache 0).2 0 =
        (.error 7, emptyCache) :=
  ⟨rfl, rfl,
   (c5_errors_not_cached (some 1) (fun _ => (.error 7 : Except ℕ ℕ)) emptyCache 0 7 rfl rfl).1,
   (c5_errors_not_cached (some 1) (fun _ => (.error 7 : Except ℕ ℕ)) emptyCache 0 7 rfl rfl).2⟩

end Brennivin
